import Mathlib

/-!
Verification of the conversation-orchestration core of the slack-research-bot
repository: tool-schema derivation (`libs/agent/tool.py`), the LangGraph
workflow nodes (`libs/agent/workflow.py`) and the agent session facade
(`libs/agent/agent.py`), shallowly embedded in Lean.
-/

set_option autoImplicit false

namespace SlackBot

/-! ## Embedding of `libs/agent/tool.py`

Python values that can appear as a dataclass field default.  The embedding
distinguishes the two module-level sentinels that the source code confuses:
`dataclasses.MISSING` (what `dataclasses.fields` actually reports for a field
declared without a default) and `inspect._empty` (the sentinel
`_dataclass_to_schema` tests against).  They are distinct Python objects, so
an `is` comparison between them is `False`. -/
inductive PyDefault where
  /-- `dataclasses.MISSING`: the field declaration carries no default. -/
  | dcMissing
  /-- the `inspect._empty` sentinel (`inspect.Parameter.empty`). -/
  | inspectEmpty
  /-- a concrete default value (identified by its repr; the value itself
  never flows into the schema, only its presence matters). -/
  | value (repr : String)
  deriving DecidableEq, Repr

/-- `x is inspect._empty` on a default cell. -/
def isInspectEmpty : PyDefault → Bool
  | .inspectEmpty => true
  | _ => false

/-- A Python type annotation as seen by `tool.py`: primitives, dataclasses
(with their `dataclasses.fields` list: name, type, `default`,
`default_factory`), and anything else (which degrades to a string schema). -/
inductive PyType where
  | str
  | int
  | float
  | bool
  | dataclassT (name : String)
      (fields : List (String × PyType × PyDefault × PyDefault))
  | otherT (repr : String)
  deriving Repr

/-- One entry of `dataclasses.fields(cls)`:
(`f.name`, `f.type`, `f.default`, `f.default_factory`). -/
abbrev DCField := String × PyType × PyDefault × PyDefault

def DCField.fname (f : DCField) : String := f.1
def DCField.ftype (f : DCField) : PyType := f.2.1
def DCField.fdefault (f : DCField) : PyDefault := f.2.2.1
def DCField.ffactory (f : DCField) : PyDefault := f.2.2.2

/-- A field object actually produced by the `dataclasses` machinery: its
`default` and `default_factory` are either `dataclasses.MISSING` or a real
value, never the unrelated `inspect._empty` sentinel. -/
def fieldFromDataclasses (f : DCField) : Bool :=
  !(isInspectEmpty f.fdefault) && !(isInspectEmpty f.ffactory)

/-- The JSON schema dictionaries built by `tool.py`: `{"type": t}`,
`{"type": t, "description": d}`, and
`{"type": "object", "properties": ..., "required": ...}`. -/
inductive Schema where
  | prim (type : String)
  | primDesc (type description : String)
  | obj (properties : List (String × Schema)) (required : List String)
  deriving Repr

/-- The `required` list of an object schema. -/
def Schema.required : Schema → List String
  | .obj _ r => r
  | _ => []

/-- The `properties` mapping of an object schema. -/
def Schema.properties : Schema → List (String × Schema)
  | .obj p _ => p
  | _ => []

/-- The loop body of `_dataclass_to_schema` appends `f.name` to
`schema["required"]` iff
`f.default is inspect._empty and f.default_factory is inspect._empty`. -/
def requiredList (fs : List DCField) : List String :=
  (fs.filter fun f => isInspectEmpty f.fdefault && isInspectEmpty f.ffactory).map
    DCField.fname

mutual

/-- `_convert_type_to_schema(t, field_name)` from `tool.py`. -/
def _convert_type_to_schema : PyType → String → Schema
  | .dataclassT _ fs, _ => .obj (_schema_props fs) (requiredList fs)
  | .str, _ => .prim "string"
  | .int, _ => .prim "integer"
  | .float, _ => .prim "number"
  | .bool, _ => .prim "boolean"
  | .otherT r, field_name => .primDesc "string" (field_name ++ " (" ++ r ++ ")")

/-- The `schema["properties"][f.name] = _convert_type_to_schema(f.type, f.name)`
assignments of the `_dataclass_to_schema` loop, in field order. -/
def _schema_props : List (String × PyType × PyDefault × PyDefault) →
    List (String × Schema)
  | [] => []
  | f :: rest => (f.1, _convert_type_to_schema f.2.1 f.1) :: _schema_props rest

end

/-- `_dataclass_to_schema(cls)` from `tool.py`: one pass over
`fields(cls)` filling `properties` and `required`. -/
def _dataclass_to_schema (fs : List DCField) : Schema :=
  .obj (_schema_props fs) (requiredList fs)

/-- A parameter annotation: a plain type, or a `Union[...]`/`Optional[...]`
(`none` standing for the `NoneType` member). -/
inductive Annotation where
  | plain (t : PyType)
  | union (args : List (Option PyType))
  deriving Repr

/-- The `Optional` unwrapping in `create_function_schema`: for a `Union`,
keep the non-`None` arguments and take the first, or keep the unresolved
union object itself (which then degrades to a string schema). -/
def resolveParamType : Annotation → PyType
  | .plain t => t
  | .union args =>
    match args.filterMap id with
    | t :: _ => t
    | [] => .otherT "typing.Union"

/-- A Python callable as introspected by `create_function_schema`:
`__name__`, `inspect.getdoc` result, and the signature's parameters in
declaration order (possibly including `self`). -/
structure PyFunc where
  name : String
  doc : Option String
  params : List (String × Annotation)

/-- The schema dictionary returned by `create_function_schema`. -/
structure FuncSchema where
  name : String
  description : String
  parameters : Schema
  deriving Repr

/-- `create_function_schema(func)` from `tool.py`: filter out `self`, demand
exactly one parameter, unwrap `Optional`, derive the parameter schema, and
wrap it in a one-property object schema requiring the argument name. -/
def create_function_schema (f : PyFunc) : Except String FuncSchema :=
  let params := f.params.filter fun p => p.1 ≠ "self"
  match params with
  | [(arg_name, ann)] =>
    let param_type := resolveParamType ann
    let param_schema :=
      match param_type with
      | .dataclassT _ fs => _dataclass_to_schema fs
      | t => _convert_type_to_schema t arg_name
    .ok
      { name := f.name
        description :=
          match f.doc with
          | some d => if d = "" then f.name ++ " function" else d
          | none => f.name ++ " function"
        parameters := .obj [(arg_name, param_schema)] [arg_name] }
  | _ => .error (f.name ++ " must have exactly one argument.")

/-- `create_enhanced_tool(functions)` from `tool.py`: try each callable in
order, keep the schemas that derive, log and skip the ones that raise. -/
def create_enhanced_tool (fns : List PyFunc) : List FuncSchema :=
  fns.filterMap fun f => (create_function_schema f).toOption

/-! Concrete dataclasses of the repository (`tools.py`), as reported by
`dataclasses.fields`. -/

/-- `ThreadInput` from `tools.py`: single field `thread_url : str`, no
default, no default factory. -/
def ThreadInputFields : List DCField :=
  [("thread_url", PyType.str, PyDefault.dcMissing, PyDefault.dcMissing)]

/-- `GetChannelsRequest` from `tools.py`: two `bool` fields, each with a
default of `False`. -/
def GetChannelsRequestFields : List DCField :=
  [("include_archived", PyType.bool, PyDefault.value "False", PyDefault.dcMissing),
   ("include_private", PyType.bool, PyDefault.value "False", PyDefault.dcMissing)]

/-! ## Embedding of the `llm_node` retry loop (`libs/agent/workflow.py`)

```
for attempt in range(MAX_RETRIES):          # MAX_RETRIES = 5
    try:
        resp = model.invoke(...)
        break
    except openai.RateLimitError:
        backoff = (2 ** attempt) + random.random()
        time.sleep(backoff)
else:
    raise
```

`model.invoke` is modelled as an oracle mapping the attempt index to an
outcome; `random.random()` as an oracle mapping the attempt index to the
jitter drawn before that sleep.  The bare `raise` in the `for`/`else` branch
executes outside any `except` block, where the exception context has already
been cleared, so by Python semantics it raises
`RuntimeError("No active exception to re-raise")` instead of the caught
`RateLimitError`. -/

/-- A Python exception as it crosses the boundaries modelled here. -/
inductive PyExc where
  | rateLimitError
  | runtimeError (msg : String)
  | other (tag : String)
  deriving DecidableEq, Repr

/-- Outcome of one `model.invoke` call: a response, an
`openai.RateLimitError`, or any other exception (dispatch in the source is
by exception class, so the `other` payload is anything that is not an
`openai.RateLimitError`). -/
inductive CallOutcome where
  | success (resp : String)
  | rateLimit
  | otherExc (e : PyExc)
  deriving Repr

/-- What the retry loop delivers to its caller. -/
inductive LoopResult where
  | ok (resp : String)
  | raised (e : PyExc)
  deriving DecidableEq, Repr

def MAX_RETRIES : Nat := 5

/-- The `for attempt in range(...)` loop over the remaining attempt indices:
returns the delivered result, the list of backoff durations slept (in
order), and the number of `model.invoke` calls made.  The `[]` case is the
loop's `else` branch: the bare `raise` with no active exception. -/
def llmAttempts (invoke : Nat → CallOutcome) (jitter : Nat → ℚ) :
    List Nat → LoopResult × List ℚ × Nat
  | [] => (.raised (.runtimeError "No active exception to re-raise"), [], 0)
  | attempt :: rest =>
    match invoke attempt with
    | .success r => (.ok r, [], 1)
    | .rateLimit =>
      let out := llmAttempts invoke jitter rest
      (out.1, ((2 ^ attempt : ℚ) + jitter attempt) :: out.2.1, out.2.2 + 1)
    | .otherExc e => (.raised e, [], 1)

/-- The retry section of `llm_node`: the loop run over
`range(MAX_RETRIES)`. -/
def llmRetry (invoke : Nat → CallOutcome) (jitter : Nat → ℚ) :
    LoopResult × List ℚ × Nat :=
  llmAttempts invoke jitter (List.range MAX_RETRIES)

/-- `invoke` answers the first `k` attempts with `RateLimitError`. -/
def rateLimitedBelow (invoke : Nat → CallOutcome) (k : Nat) : Prop :=
  ∀ i < k, invoke i = .rateLimit

/-- Whether an outcome is the `openai.RateLimitError` signal. -/
def CallOutcome.isRL : CallOutcome → Bool
  | .rateLimit => true
  | _ => false

/-! ## Embedding of `tool_node` and `_parse_call` (`libs/agent/workflow.py`) -/

/-- A Python/JSON value as it flows through tool arguments and results. -/
inductive PyVal where
  | pynone
  | str (s : String)
  | int (n : Int)
  | bool (b : Bool)
  | list (xs : List PyVal)
  | dict (kvs : List (String × PyVal))
  deriving Repr

/-- A raw tool-call dictionary as produced by a model turn, in either of the
two shapes `_parse_call` accepts: the legacy flat format (`"name"` at top
level, optional `"id"`) and the new nested format (`call["function"]`).
`arguments` is modelled as the already-parsed mapping (the source applies
`json.loads` when it receives a string). -/
inductive RawCall where
  | legacy (name : String) (arguments : List (String × PyVal)) (id : Option String)
  | nested (id : String) (name : String) (arguments : List (String × PyVal))

/-- `_parse_call(call, idx)` from `workflow.py`: returns
`(tool_call_id, fn_name, fn_args)`.  In the legacy format a falsy `"id"`
(absent or empty) is replaced by the synthetic `f"legacy_{idx}_{fn_name}"`. -/
def _parse_call (call : RawCall) (idx : Nat) :
    String × String × List (String × PyVal) :=
  match call with
  | .legacy fn_name raw_args id? =>
    let tool_call_id :=
      match id? with
      | some s =>
        if s = "" then "legacy_" ++ toString idx ++ "_" ++ fn_name else s
      | none => "legacy_" ++ toString idx ++ "_" ++ fn_name
    (tool_call_id, fn_name, raw_args)
  | .nested id fn_name raw_args => (id, fn_name, raw_args)

/-- The function name of a raw call (the `fn_name` component of
`_parse_call`, which does not depend on `idx`). -/
def RawCall.callName : RawCall → String
  | .legacy n _ _ => n
  | .nested _ n _ => n

/-- The argument mapping of a raw call (the `fn_args` component of
`_parse_call`). -/
def RawCall.callArgs : RawCall → List (String × PyVal)
  | .legacy _ args _ => args
  | .nested _ _ args => args

/-- An entry of `tool_map`, together with what `tool_node` introspects from
it: the first parameter's name and whether its annotation is a dataclass.
`fn` is the opaque Python callable; in the dataclass case it covers both the
`param_type(**fn_args)` construction and the call `py_fn(...)`, either of
which may raise (the `Except.error` case). -/
structure ToolEntry where
  paramName : String
  paramIsDataclass : Bool
  fn : PyVal → Except PyExc PyVal

/-- The argument-normalisation shim of `tool_node`: when the parameter is a
dataclass and the model wrapped the payload one level deeper under the
parameter's name (`len(fn_args) == 1 and param_name in fn_args`), strip that
level; otherwise pass the mapping itself. -/
def shimArgs (entry : ToolEntry) (fn_args : List (String × PyVal)) : PyVal :=
  if entry.paramIsDataclass then
    if fn_args.length == 1 then
      match fn_args.lookup entry.paramName with
      | some v => v
      | none => PyVal.dict fn_args
    else PyVal.dict fn_args
  else PyVal.dict fn_args

/-- One chat message, as far as `tool_node` is concerned: the tool-result
dictionaries it appends (whose `"content"` is `json.dumps({"content": out})`,
kept here in structured form), and every other message shape, opaque. -/
inductive ChatMsg where
  | toolMsg (tool_call_id name : String) (content : PyVal)
  | otherMsg (tag : String)

/-- The `"name"` field of a tool-result message. -/
def msgName : ChatMsg → String
  | .toolMsg _ n _ => n
  | .otherMsg _ => ""

/-- One iteration of the `tool_node` loop on one raw call: `none` when the
name is not in `tool_map` (the `continue` branch), `some (.error e)` when
the callable raises, `some (.ok msg)` with the appended result otherwise. -/
def dispatchCall (tool_map : String → Option ToolEntry) (call : RawCall)
    (idx : Nat) : Option (Except PyExc ChatMsg) :=
  match _parse_call call idx with
  | (tool_call_id, fn_name, fn_args) =>
    match tool_map fn_name with
    | none => none
    | some entry =>
      match entry.fn (shimArgs entry fn_args) with
      | .error e => .some (.error e)
      | .ok out =>
        .some (.ok (.toolMsg tool_call_id fn_name (.dict [("content", out)])))

/-- The `for idx, call in enumerate(state["tool_calls"])` loop of
`tool_node`, accumulating the local `results` list; an exception raised by a
callable aborts the whole loop (the accumulated results are discarded with
the stack frame). -/
def toolLoop (tool_map : String → Option ToolEntry) :
    List RawCall → Nat → Except PyExc (List ChatMsg)
  | [], _ => .ok []
  | c :: cs, idx =>
    match dispatchCall tool_map c idx with
    | none => toolLoop tool_map cs (idx + 1)
    | some (.error e) => .error e
    | some (.ok m) => (toolLoop tool_map cs (idx + 1)).map (m :: ·)

/-- The mutable state dictionary threaded through the graph nodes. -/
structure GraphState where
  messages : List ChatMsg
  tool_calls : List RawCall

/-- `tool_node(state)` from `workflow.py`.  `msgs.extend(results)` and
`state["tool_calls"] = []` are the only writes to the state and both happen
after the loop, so when a callable raises, the exception propagates with the
state exactly as the caller left it (second component `some e`). -/
def tool_node (tool_map : String → Option ToolEntry) (state : GraphState) :
    GraphState × Option PyExc :=
  match toolLoop tool_map state.tool_calls 0 with
  | .error e => (state, some e)
  | .ok results =>
    ({ messages := state.messages ++ results, tool_calls := [] }, none)

/-- Whether `tool_node`'s dispatch of this call would raise: the name is
registered and the callable (on the shimmed arguments) raises. -/
def callRaises (tool_map : String → Option ToolEntry) (c : RawCall) : Bool :=
  match tool_map c.callName with
  | none => false
  | some entry =>
    match entry.fn (shimArgs entry c.callArgs) with
    | .error _ => true
    | .ok _ => false

/-! ## Embedding of the session facade (`libs/agent/agent.py`) -/

/-- A Vertex `Part`: `getattr(part, "text", None)` yields `none` for a
part without a text attribute and the string otherwise (the empty string is
falsy in the source's truthiness tests). -/
structure Part where
  text : Option String
  deriving DecidableEq, Repr

/-- A Vertex `Content`: role (`"user"` or `"model"`) and its parts. -/
structure Content where
  role : String
  parts : List Part
  deriving DecidableEq, Repr

/-- The texts of the truthy parts of a part list, in part order (what the
source's inner loops over `content.parts` enumerate). -/
def partTexts (ps : List Part) : List String :=
  ps.filterMap fun p =>
    match p.text with
    | some t => if t = "" then none else some t
    | none => none

/-- The texts of the truthy parts of a content. -/
def Content.truthyTexts (c : Content) : List String :=
  partTexts c.parts

/-- The inner loop of `thoughts` over one model content's parts: threads the
running ordinal `idx`, appends `part.text` when `idx > watermark`, and
increments `idx` once per truthy text part. -/
def partsScan (watermark : Int) : List Part → Nat → List String × Nat
  | [], idx => ([], idx)
  | p :: ps, idx =>
    match p.text with
    | some t =>
      if t = "" then partsScan watermark ps idx
      else
        let rest := partsScan watermark ps (idx + 1)
        (if (idx : Int) > watermark then t :: rest.1 else rest.1, rest.2)
    | none => partsScan watermark ps idx

/-- The outer loop of `thoughts` over `self._contents`. -/
def thoughtsGo (watermark : Int) : List Content → Nat → List String
  | [], _ => []
  | c :: cs, idx =>
    if c.role = "model" then
      let r := partsScan watermark c.parts idx
      r.1 ++ thoughtsGo watermark cs r.2
    else thoughtsGo watermark cs idx

/-- `thoughts(watermark)` from `agent.py`, as a function of the session's
contents list (which it only reads). -/
def thoughts (watermark : Int) (contents : List Content) : List String :=
  thoughtsGo watermark contents 0

/-- The flattened sequence of truthy text parts of the model contents, in
transcript order: the sequence whose positions are the ordinals `thoughts`
actually counts. -/
def assistantPartTexts (contents : List Content) : List String :=
  ((contents.filter fun c => c.role = "model").map Content.truthyTexts).flatten

/-- Modelled from the spec's words, for comparison with `thoughts` (claim
C7): enumerate the Assistant (model) entries of the transcript, give each
entry a 0-based ordinal among Assistant entries, and return the texts of
every entry whose ordinal is strictly greater than the watermark. -/
def specEntryThoughts (watermark : Int) (contents : List Content) :
    List String :=
  ((((contents.filter fun c => c.role = "model").map Content.truthyTexts).enum.filter
    fun p => (p.1 : Int) > watermark).map Prod.snd).flatten

/-- The scan of `Agent.prompt` step 5: walk `reversed(self._contents)`, and
from the first model content that has a truthy text part return that part's
text; default to the empty string. -/
def firstTruthyText : List Part → Option String
  | [] => none
  | p :: ps =>
    match p.text with
    | some t => if t = "" then firstTruthyText ps else some t
    | none => firstTruthyText ps

def lastModelTextGo : List Content → String
  | [] => ""
  | c :: cs =>
    if c.role = "model" then
      match firstTruthyText c.parts with
      | some t => t
      | none => lastModelTextGo cs
    else lastModelTextGo cs

def lastModelText (contents : List Content) : String :=
  lastModelTextGo contents.reverse

/-- The session state of `Agent`: `self._contents` and `self._terminated`. -/
structure AgentState where
  contents : List Content
  terminated : Bool
  deriving DecidableEq, Repr

/-- `Content(role="user", parts=[Part.from_text(prompt)])`. -/
def userContent (p : String) : Content := ⟨"user", [⟨some p⟩]⟩

/-- `Agent.prompt(prompt)` from `agent.py`, with `self._graph.invoke`
abstracted as the collaborator `graphRun`.  `graphRun` receives the list the
session passes in (step 1 has already appended the user content to
`self._contents` itself; the graph then works on the shallow copy
`list(self._contents)`); it returns the final value of the graph's own list
together with the exception that propagated, if any.  On an exception,
`self._contents = state_out["contents"]` never runs, so the graph's list —
including any turns the run appended to it — is discarded and the session
keeps only what was appended before the call. -/
def promptA (graphRun : List Content → List Content × Option PyExc)
    (s : AgentState) (p : String) : AgentState × Except PyExc String :=
  if s.terminated then
    (s, .error (.runtimeError "Agent has been terminated."))
  else if p = "END" then
    ({ s with terminated := true }, .ok "")
  else
    match graphRun (s.contents ++ [userContent p]) with
    | (_, some e) =>
      ({ s with contents := s.contents ++ [userContent p] }, .error e)
    | (final, none) => ({ s with contents := final }, .ok (lastModelText final))

/-! ## Concrete instances used as witnesses and counterexamples -/

/-- A tool map registering `get_slack_channels` only (its parameter is the
`GetChannelsRequest` dataclass; the callable succeeds with an empty channel
list). -/
def channelsToolMap : String → Option ToolEntry := fun n =>
  if n = "get_slack_channels" then
    some ⟨"request", true, fun _ => .ok (.list [])⟩
  else none

/-- A batch of three pending calls of which the middle one names no
registered callable. -/
def mixedBatchState : GraphState :=
  ⟨[.otherMsg "assistant"],
   [.nested "call_1" "get_slack_channels" [],
    .nested "call_2" "unknown_tool" [],
    .legacy "get_slack_channels" [("request", .dict [])] none]⟩

/-- A tool map with a succeeding tool and a raising tool. -/
def echoBoomToolMap : String → Option ToolEntry := fun n =>
  if n = "echo" then some ⟨"args", false, fun v => .ok v⟩
  else if n = "boom" then
    some ⟨"args", false, fun _ => .error (.other "ValueError")⟩
  else none

/-- A batch whose first call succeeds and whose second call raises. -/
def echoBoomState : GraphState :=
  ⟨[.otherMsg "user"],
   [.nested "call_1" "echo" [("text", .str "hi")],
    .nested "call_2" "boom" []]⟩

/-- A transcript with a single model entry holding two truthy text parts. -/
def twoPartModelTranscript : List Content :=
  [⟨"model", [⟨some "a"⟩, ⟨some "b"⟩]⟩]

/-- A graph run that appends a model turn to its (copied) contents list and
then lets a tool failure propagate. -/
def abortingRun : List Content → List Content × Option PyExc := fun cs =>
  (cs ++ [⟨"model", [⟨some "partial"⟩]⟩], some (.other "ToolInvocationError"))

/-! ## Theorems about `tool.py` -/

/-- On fields as the `dataclasses` machinery actually produces them
(`default` and `default_factory` are `MISSING` or a value, never
`inspect._empty`), the `required` list built by `_dataclass_to_schema` is
empty. -/
theorem requiredList_nil_of_wf (fs : List DCField)
    (h : fs.all fieldFromDataclasses = true) : requiredList fs = [] := by
  induction fs with
  | nil => rfl
  | cons f rest ih =>
    rw [List.all_cons, Bool.and_eq_true] at h
    have hf := h.1
    rw [fieldFromDataclasses, Bool.and_eq_true, Bool.not_eq_true',
      Bool.not_eq_true'] at hf
    rw [requiredList, List.filter_cons]
    simp only [hf.1, Bool.false_and, if_false, reduceIte]
    exact ih h.2

/-- C1: the claim says a field appears in the derived schema's `required`
set iff it lacks a default.  In the code, the membership test is
`f.default is inspect._empty and f.default_factory is inspect._empty`, but
`dataclasses.fields` reports a missing default as `dataclasses.MISSING`, a
different sentinel, so the test is false for every field and `required` is
always empty — in particular for `ThreadInput`'s defaultless field
`thread_url`, which the claim requires to be listed. -/
theorem dataclass_schema_required_always_empty (fs : List DCField)
    (h : fs.all fieldFromDataclasses = true) :
    (_dataclass_to_schema fs).required = [] := by
  rw [_dataclass_to_schema, Schema.required]
  exact requiredList_nil_of_wf fs h

/-- Witness for C1 at the repository's `ThreadInput` dataclass: its single
field has no default, yet the derived `required` list is empty. -/
theorem dataclass_schema_required_always_empty_witness :
    ThreadInputFields.all fieldFromDataclasses = true ∧
    (_dataclass_to_schema ThreadInputFields).required = [] :=
  ⟨by decide,
   dataclass_schema_required_always_empty ThreadInputFields (by decide)⟩

/-- `create_enhanced_tool` distributes over append (the loop treats the
callables independently). -/
theorem create_enhanced_tool_append (xs ys : List PyFunc) :
    create_enhanced_tool (xs ++ ys) =
      create_enhanced_tool xs ++ create_enhanced_tool ys := by
  unfold create_enhanced_tool
  exact List.filterMap_append xs ys _

/-- `create_enhanced_tool` returns exactly one schema per callable whose
derivation succeeded. -/
theorem create_enhanced_tool_length (fns : List PyFunc) :
    (create_enhanced_tool fns).length =
      (fns.filter fun f => (create_function_schema f).isOk).length := by
  induction fns with
  | nil => rfl
  | cons f rest ih =>
    unfold create_enhanced_tool at *
    rw [List.filterMap_cons, List.filter_cons]
    cases hok : create_function_schema f with
    | ok v =>
      simp only [hok, Except.toOption, Except.isOk, Except.toBool,
        List.length_cons, reduceIte] at ih ⊢
      omega
    | error e =>
      simp only [hok, Except.toOption, Except.isOk, Except.toBool,
        Bool.false_eq_true, reduceIte] at ih ⊢
      omega

/-- C9: a schema-derivation failure for one callable does not abort
registration of the others: the failed callable is omitted, the schemas of
the surrounding callables are unchanged and keep their input order, and the
result holds exactly one schema per callable whose derivation succeeded. -/
theorem create_enhanced_tool_failure_isolated (xs ys : List PyFunc)
    (bad : PyFunc) (h : (create_function_schema bad).isOk = false) :
    create_enhanced_tool (xs ++ bad :: ys) =
      create_enhanced_tool xs ++ create_enhanced_tool ys ∧
    (create_enhanced_tool (xs ++ bad :: ys)).length =
      ((xs ++ bad :: ys).filter fun f => (create_function_schema f).isOk).length := by
  constructor
  · rw [create_enhanced_tool_append]
    congr 1
    unfold create_enhanced_tool
    rw [List.filterMap_cons]
    cases hok : create_function_schema bad with
    | ok v => rw [hok] at h; simp [Except.isOk, Except.toBool] at h
    | error e => simp [Except.toOption]
  · exact create_enhanced_tool_length _

/-- Witness for C9: `get_thread_messages` (one parameter) derives, a
zero-parameter callable fails the arity check, and the good schemas are
unaffected. -/
theorem create_enhanced_tool_failure_isolated_witness :
    (create_function_schema ⟨"no_args", none, []⟩).isOk = false ∧
    (create_enhanced_tool
        ([⟨"get_thread_messages", some "Get all messages from a Slack thread given its URL.",
            [("params", Annotation.plain (PyType.dataclassT "ThreadInput" ThreadInputFields))]⟩] ++
          ⟨"no_args", none, []⟩ ::
            [⟨"PromptUser", some "Tell the outer application to ask the user something.",
              [("args", Annotation.plain (PyType.otherT "PromptUserRequest | Dict[str, Any]"))]⟩]) =
      create_enhanced_tool
          [⟨"get_thread_messages", some "Get all messages from a Slack thread given its URL.",
            [("params", Annotation.plain (PyType.dataclassT "ThreadInput" ThreadInputFields))]⟩] ++
        create_enhanced_tool
          [⟨"PromptUser", some "Tell the outer application to ask the user something.",
            [("args", Annotation.plain (PyType.otherT "PromptUserRequest | Dict[str, Any]"))]⟩]) :=
  ⟨by rfl,
   (create_enhanced_tool_failure_isolated _ _ ⟨"no_args", none, []⟩ (by rfl)).1⟩

/-! ## Theorems about the `llm_node` retry loop -/

/-- The backoff durations slept are one per leading rate-limited attempt,
in order, each equal to `2 ^ attempt + random.random()`. -/
theorem llmAttempts_delays (invoke : Nat → CallOutcome) (jitter : Nat → ℚ)
    (l : List Nat) :
    (llmAttempts invoke jitter l).2.1 =
      (l.takeWhile fun k => (invoke k).isRL).map
        fun k => (2 : ℚ) ^ k + jitter k := by
  induction l with
  | nil => rfl
  | cons a l ih =>
    rw [llmAttempts, List.takeWhile_cons]
    cases h : invoke a with
    | success r => simp [h, CallOutcome.isRL]
    | rateLimit => simp [h, CallOutcome.isRL, ih]
    | otherExc e => simp [h, CallOutcome.isRL]

/-- The loop makes at most one `model.invoke` call per remaining attempt. -/
theorem llmAttempts_count (invoke : Nat → CallOutcome) (jitter : Nat → ℚ)
    (l : List Nat) :
    (llmAttempts invoke jitter l).2.2 ≤ l.length := by
  induction l with
  | nil => exact Nat.le_refl 0
  | cons a l ih =>
    rw [llmAttempts]
    cases h : invoke a with
    | success r => simp
    | rateLimit => simpa using ih
    | otherExc e => simp

/-- A prefix of attempts that all hit the rate limit contributes its
backoffs and invocation count and passes control to the rest of the loop. -/
theorem llmAttempts_append_rl (invoke : Nat → CallOutcome) (jitter : Nat → ℚ)
    (l₁ l₂ : List Nat) (h1 : ∀ i ∈ l₁, invoke i = .rateLimit) :
    llmAttempts invoke jitter (l₁ ++ l₂) =
      ((llmAttempts invoke jitter l₂).1,
        (l₁.map fun k => (2 : ℚ) ^ k + jitter k) ++
          (llmAttempts invoke jitter l₂).2.1,
        (llmAttempts invoke jitter l₂).2.2 + l₁.length) := by
  induction l₁ with
  | nil => simp
  | cons a l ih =>
    have ha : invoke a = .rateLimit := h1 a (List.mem_cons_self a l)
    rw [List.cons_append, llmAttempts, ha]
    rw [ih fun i hi => h1 i (List.mem_cons_of_mem a hi)]
    simp [Nat.add_assoc, Nat.add_comm 1]

/-- C3: the retry wrapper makes at most 5 `model.invoke` attempts; the
backoff slept after the `k`-th failed attempt is `2 ^ k` plus the jitter
drawn for that attempt; consequently the deterministic components of
successive delays (delay minus jitter) are strictly increasing. -/
theorem llm_retry_backoff (invoke : Nat → CallOutcome) (jitter : Nat → ℚ)
    (hj : ∀ k, 0 ≤ jitter k ∧ jitter k < 1) :
    (llmRetry invoke jitter).2.2 ≤ 5 ∧
    (llmRetry invoke jitter).2.1 =
      (List.range (llmRetry invoke jitter).2.1.length).map
        (fun k => (2 : ℚ) ^ k + jitter k) ∧
    ∀ j k, ∀ hjl : j < (llmRetry invoke jitter).2.1.length,
      ∀ hkl : k < (llmRetry invoke jitter).2.1.length, j < k →
        (llmRetry invoke jitter).2.1[j] - jitter j <
          (llmRetry invoke jitter).2.1[k] - jitter k := by
  have hcount : (llmRetry invoke jitter).2.2 ≤ 5 := by
    simpa using llmAttempts_count invoke jitter (List.range MAX_RETRIES)
  have htw : (List.range MAX_RETRIES).takeWhile (fun k => (invoke k).isRL) =
      List.range (((List.range MAX_RETRIES).takeWhile
        (fun k => (invoke k).isRL)).length) := by
    have hpre : (List.range MAX_RETRIES).takeWhile (fun k => (invoke k).isRL) <+:
        List.range MAX_RETRIES := List.takeWhile_prefix _
    have hle : ((List.range MAX_RETRIES).takeWhile
        (fun k => (invoke k).isRL)).length ≤ MAX_RETRIES := by
      simpa using hpre.length_le
    conv_lhs => rw [List.prefix_iff_eq_take.mp hpre]
    rw [List.take_range, Nat.min_eq_left hle]
  have hd0 : (llmRetry invoke jitter).2.1 =
      ((List.range MAX_RETRIES).takeWhile fun k => (invoke k).isRL).map
        (fun k => (2 : ℚ) ^ k + jitter k) :=
    llmAttempts_delays invoke jitter (List.range MAX_RETRIES)
  have hlen : (llmRetry invoke jitter).2.1.length =
      ((List.range MAX_RETRIES).takeWhile fun k => (invoke k).isRL).length := by
    rw [hd0, List.length_map]
  have hdel : (llmRetry invoke jitter).2.1 =
      (List.range (llmRetry invoke jitter).2.1.length).map
        (fun k => (2 : ℚ) ^ k + jitter k) := by
    rw [hlen, hd0]
    conv_lhs => rw [htw]
  refine ⟨hcount, hdel, ?_⟩
  intro j k hjl hkl hjk
  have ej : (llmRetry invoke jitter).2.1[j] = (2 : ℚ) ^ j + jitter j := by
    conv_lhs => rw [List.getElem_of_eq hdel]
    simp
  have ek : (llmRetry invoke jitter).2.1[k] = (2 : ℚ) ^ k + jitter k := by
    conv_lhs => rw [List.getElem_of_eq hdel]
    simp
  rw [ej, ek]
  have hpow : (2 : ℚ) ^ j < 2 ^ k := by
    apply pow_lt_pow_right₀ _ hjk
    norm_num
  linarith

/-- Witness for C3: two rate-limited attempts, then success, with jitter
constantly one half. -/
theorem llm_retry_backoff_witness :
    (llmRetry (fun k => if k < 2 then CallOutcome.rateLimit else .success "ok")
        (fun _ => (1 : ℚ) / 2)).2.2 ≤ 5 ∧
    (llmRetry (fun k => if k < 2 then CallOutcome.rateLimit else .success "ok")
        (fun _ => (1 : ℚ) / 2)).2.1 =
      (List.range (llmRetry
          (fun k => if k < 2 then CallOutcome.rateLimit else .success "ok")
          (fun _ => (1 : ℚ) / 2)).2.1.length).map
        (fun k => (2 : ℚ) ^ k + (1 : ℚ) / 2) :=
  ⟨(llm_retry_backoff _ _ fun _ => ⟨by norm_num, by norm_num⟩).1,
   (llm_retry_backoff _ _ fun _ => ⟨by norm_num, by norm_num⟩).2.1⟩

/-- C2: when all 5 attempts hit the rate limit, the `for`/`else` branch
executes a bare `raise` outside any `except` block, where the exception
context has been cleared, so the caller receives
`RuntimeError("No active exception to re-raise")`, not the original
`RateLimitError` the claim (and the spec) promise. -/
theorem retry_exhaustion_raises_wrong_error :
    (llmRetry (fun _ => .rateLimit) (fun _ => 0)).1 =
      .raised (.runtimeError "No active exception to re-raise") ∧
    (llmRetry (fun _ => .rateLimit) (fun _ => 0)).1 ≠
      .raised .rateLimitError ∧
    (llmRetry (fun _ => .rateLimit) (fun _ => 0)).2.2 = 5 := by
  refine ⟨by rfl, ?_, by rfl⟩
  intro h
  have h1 : (llmRetry (fun _ => CallOutcome.rateLimit) (fun _ => 0)).1 =
      .raised (.runtimeError "No active exception to re-raise") := by rfl
  rw [h1] at h
  exact absurd h (by decide)

/-- C4: a non-rate-limit failure at attempt `j` (after `j` rate-limited
attempts) propagates at once: the delivered result is that very failure, no
further `model.invoke` call is made (`j + 1` in total), and no backoff is
slept for it (exactly the `j` earlier backoffs were slept). -/
theorem llm_other_failure_propagates (invoke : Nat → CallOutcome)
    (jitter : Nat → ℚ) (j : Nat) (e : PyExc) (hj5 : j < 5)
    (hbefore : ∀ i, i < j → invoke i = .rateLimit)
    (hfail : invoke j = .otherExc e) :
    (llmRetry invoke jitter).1 = .raised e ∧
    (llmRetry invoke jitter).2.2 = j + 1 ∧
    (llmRetry invoke jitter).2.1.length = j := by
  obtain ⟨m, hm⟩ : ∃ m, 5 = j + (m + 1) := ⟨5 - j - 1, by omega⟩
  have hsplit : List.range MAX_RETRIES =
      List.range j ++ j :: ((List.range m).map fun t => j + 1 + t) := by
    show List.range 5 = _
    rw [hm, List.range_add, List.range_succ_eq_map]
    simp only [List.map_cons, List.map_map, Nat.add_zero]
    have hfg : ((fun x => j + x) ∘ Nat.succ) = (fun t : Nat => j + 1 + t) := by
      funext t
      simp only [Function.comp_apply]
      omega
    rw [hfg]
  have hpre : ∀ i ∈ List.range j, invoke i = .rateLimit := by
    intro i hi
    exact hbefore i (List.mem_range.mp hi)
  unfold llmRetry
  rw [hsplit, llmAttempts_append_rl invoke jitter _ _ hpre, llmAttempts, hfail]
  refine ⟨rfl, by simp [Nat.add_comm], by simp⟩

/-- Witness for C4: one rate-limited attempt, then a non-rate-limit
failure at attempt 1: it is delivered as-is, after 2 invocations and a
single backoff sleep. -/
theorem llm_other_failure_propagates_witness :
    (llmRetry (fun k => if k = 0 then CallOutcome.rateLimit
        else .otherExc (.other "APIError")) (fun _ => 0)).1 =
      .raised (.other "APIError") ∧
    (llmRetry (fun k => if k = 0 then CallOutcome.rateLimit
        else .otherExc (.other "APIError")) (fun _ => 0)).2.2 = 1 + 1 ∧
    (llmRetry (fun k => if k = 0 then CallOutcome.rateLimit
        else .otherExc (.other "APIError")) (fun _ => 0)).2.1.length = 1 :=
  llm_other_failure_propagates _ _ 1 (.other "APIError") (by norm_num)
    (fun i hi => by interval_cases i; rfl) (by rfl)

/-! ## Theorems about `tool_node` -/

/-- A call whose name has no registered callable is skipped (`continue`). -/
theorem dispatchCall_of_unknown (tool_map : String → Option ToolEntry)
    (c : RawCall) (idx : Nat) (h : tool_map c.callName = none) :
    dispatchCall tool_map c idx = none := by
  cases c with
  | legacy n args id? =>
    simp only [RawCall.callName] at h
    simp [dispatchCall, _parse_call, h]
  | nested id n args =>
    simp only [RawCall.callName] at h
    simp [dispatchCall, _parse_call, h]

/-- A known-name call whose callable succeeds produces exactly one tool
message carrying the call's name. -/
theorem dispatchCall_of_ok (tool_map : String → Option ToolEntry)
    (c : RawCall) (idx : Nat) (entry : ToolEntry) (out : PyVal)
    (he : tool_map c.callName = some entry)
    (ho : entry.fn (shimArgs entry c.callArgs) = .ok out) :
    ∃ msgid, dispatchCall tool_map c idx =
      some (.ok (.toolMsg msgid c.callName (.dict [("content", out)]))) := by
  cases c with
  | legacy n args id? =>
    simp only [RawCall.callName] at he ⊢
    simp only [RawCall.callArgs] at ho
    refine ⟨(match id? with
      | some s => if s = "" then "legacy_" ++ toString idx ++ "_" ++ n else s
      | none => "legacy_" ++ toString idx ++ "_" ++ n), ?_⟩
    simp [dispatchCall, _parse_call, he, ho]
  | nested id n args =>
    simp only [RawCall.callName] at he ⊢
    simp only [RawCall.callArgs] at ho
    exact ⟨id, by simp [dispatchCall, _parse_call, he, ho]⟩

/-- When no dispatched callable in the batch raises, the loop completes
with one result per known-name call, in request order. -/
theorem toolLoop_ok_of_no_raise (tool_map : String → Option ToolEntry)
    (cs : List RawCall) (h : ∀ c ∈ cs, callRaises tool_map c = false) :
    ∀ idx, ∃ rs, toolLoop tool_map cs idx = .ok rs ∧
      rs.map msgName =
        (cs.filter fun c => (tool_map c.callName).isSome).map RawCall.callName ∧
      rs.length = (cs.filter fun c => (tool_map c.callName).isSome).length := by
  induction cs with
  | nil => intro idx; exact ⟨[], rfl, rfl, rfl⟩
  | cons c cs ih =>
    intro idx
    have hc : callRaises tool_map c = false := h c (List.mem_cons_self c cs)
    obtain ⟨rs, hrs, hmap, hlen⟩ :=
      ih (fun x hx => h x (List.mem_cons_of_mem c hx)) (idx + 1)
    cases he : tool_map c.callName with
    | none =>
      refine ⟨rs, ?_, ?_, ?_⟩
      · rw [toolLoop, dispatchCall_of_unknown tool_map c idx he, hrs]
      · rw [List.filter_cons, he]
        simpa using hmap
      · rw [List.filter_cons, he]
        simpa using hlen
    | some entry =>
      rw [callRaises, he] at hc
      cases hfn : entry.fn (shimArgs entry c.callArgs) with
      | error e => simp [hfn] at hc
      | ok out =>
        obtain ⟨msgid, hd⟩ := dispatchCall_of_ok tool_map c idx entry out he hfn
        refine ⟨.toolMsg msgid c.callName (.dict [("content", out)]) :: rs,
          ?_, ?_, ?_⟩
        · rw [toolLoop, hd, hrs]
          rfl
        · rw [List.filter_cons, he]
          simp only [Option.isSome_some, reduceIte, List.map_cons, msgName]
          rw [hmap]
        · rw [List.filter_cons, he]
          simp only [Option.isSome_some, reduceIte, List.length_cons]
          rw [hlen]

/-- The known and unknown calls of a batch partition it. -/
theorem filter_known_unknown_length (tool_map : String → Option ToolEntry)
    (cs : List RawCall) :
    (cs.filter fun c => (tool_map c.callName).isSome).length +
      (cs.filter fun c => (tool_map c.callName).isNone).length = cs.length := by
  induction cs with
  | nil => rfl
  | cons c cs ih =>
    rw [List.filter_cons, List.filter_cons]
    cases he : tool_map c.callName with
    | none => simp only [Option.isSome_none, Option.isNone_none,
        Bool.false_eq_true, reduceIte, List.length_cons]; omega
    | some entry => simp only [Option.isSome_some, Option.isNone_some,
        Bool.false_eq_true, reduceIte, List.length_cons]; omega

/-- C5: in a batch of `N` pending calls of which `M` name no registered
callable, `tool_node` appends exactly `N − M` tool-result entries — one per
known-name call, in the original request order — each unknown-name call is
skipped without producing a result, the batch is not aborted, and the
pending-call list is cleared. -/
theorem tool_node_skips_unknown (tool_map : String → Option ToolEntry)
    (s : GraphState)
    (h : s.tool_calls.all (fun c => !(callRaises tool_map c)) = true) :
    (tool_node tool_map s).2 = none ∧
    (tool_node tool_map s).1.tool_calls = [] ∧
    ∃ rs, toolLoop tool_map s.tool_calls 0 = .ok rs ∧
      (tool_node tool_map s).1.messages = s.messages ++ rs ∧
      rs.map msgName =
        (s.tool_calls.filter fun c => (tool_map c.callName).isSome).map
          RawCall.callName ∧
      rs.length = s.tool_calls.length -
        (s.tool_calls.filter fun c => (tool_map c.callName).isNone).length := by
  have h' : ∀ c ∈ s.tool_calls, callRaises tool_map c = false := by
    intro c hcmem
    have := List.all_eq_true.mp h c hcmem
    simpa using this
  obtain ⟨rs, hrs, hmap, hlen⟩ := toolLoop_ok_of_no_raise tool_map s.tool_calls h' 0
  have hpart := filter_known_unknown_length tool_map s.tool_calls
  refine ⟨?_, ?_, rs, hrs, ?_, hmap, ?_⟩
  · rw [tool_node, hrs]
  · rw [tool_node, hrs]
  · rw [tool_node, hrs]
  · omega

/-- Witness for C5: three pending calls, one with an unknown name; two
results are appended, in order, and no exception propagates. -/
theorem tool_node_skips_unknown_witness :
    (tool_node channelsToolMap mixedBatchState).2 = none ∧
    (tool_node channelsToolMap mixedBatchState).1.tool_calls = [] ∧
    ∃ rs, toolLoop channelsToolMap mixedBatchState.tool_calls 0 = .ok rs ∧
      (tool_node channelsToolMap mixedBatchState).1.messages =
        mixedBatchState.messages ++ rs ∧
      rs.map msgName =
        (mixedBatchState.tool_calls.filter
          fun c => (channelsToolMap c.callName).isSome).map RawCall.callName ∧
      rs.length = mixedBatchState.tool_calls.length -
        (mixedBatchState.tool_calls.filter
          fun c => (channelsToolMap c.callName).isNone).length :=
  tool_node_skips_unknown channelsToolMap mixedBatchState (by rfl)

/-- C10: `tool_node` is atomic with respect to the message list: when a
dispatched callable raises, the exception propagates with the state exactly
as it was — no tool-result message of the batch is appended (not even those
of earlier successful calls) and the pending-call list is left uncleared;
results are appended, all at once, only when the whole loop has
completed. -/
theorem tool_node_atomic (tool_map : String → Option ToolEntry)
    (s : GraphState) :
    ((tool_node tool_map s).2.isSome = true → (tool_node tool_map s).1 = s) ∧
    (∀ rs, toolLoop tool_map s.tool_calls 0 = .ok rs →
      tool_node tool_map s =
        ({ messages := s.messages ++ rs, tool_calls := [] }, none)) := by
  constructor
  · intro h
    cases hl : toolLoop tool_map s.tool_calls 0 with
    | error e => rw [tool_node, hl]
    | ok rs => rw [tool_node, hl] at h; exact absurd h (by simp)
  · intro rs hl
    rw [tool_node, hl]

/-- Witness for C10: a batch whose first call succeeds and whose second
raises leaves the state untouched: the earlier result is not appended and
the pending-call list is kept. -/
theorem tool_node_atomic_witness :
    (tool_node echoBoomToolMap echoBoomState).2.isSome = true ∧
    (tool_node echoBoomToolMap echoBoomState).1 = echoBoomState :=
  ⟨by rfl, (tool_node_atomic echoBoomToolMap echoBoomState).1 (by rfl)⟩

/-! ## Theorems about the session facade -/

/-- C6: `prompt("END")` on a non-terminated session sets the terminated
latch, returns the empty string, appends nothing to the transcript and never
consults the graph (the result is the same for every `run`, which is
universally quantified); afterwards every `prompt` call, with any input and
any `run`, fails with the terminated-session error. -/
theorem prompt_end_sentinel
    (run run2 : List Content → List Content × Option PyExc)
    (s : AgentState) (p2 : String) (h : s.terminated = false) :
    promptA run s "END" = ({ s with terminated := true }, .ok "") ∧
    (promptA run s "END").1.contents = s.contents ∧
    promptA run2 { s with terminated := true } p2 =
      ({ s with terminated := true },
        .error (.runtimeError "Agent has been terminated.")) := by
  have h1 : promptA run s "END" = ({ s with terminated := true }, .ok "") := by
    rw [promptA, if_neg (by simp [h]), if_pos rfl]
  refine ⟨h1, by rw [h1], ?_⟩
  rw [promptA, if_pos rfl]

/-- Witness for C6: an empty fresh session. -/
theorem prompt_end_sentinel_witness :
    promptA (fun cs => (cs, none)) ⟨[], false⟩ "END" = (⟨[], true⟩, .ok "") ∧
    (promptA (fun cs => (cs, none)) ⟨[], false⟩ "END").1.contents =
      ([] : List Content) ∧
    promptA (fun cs => (cs, none)) ⟨[], true⟩ "hello" =
      (⟨[], true⟩, .error (.runtimeError "Agent has been terminated.")) :=
  prompt_end_sentinel (fun cs => (cs, none)) (fun cs => (cs, none))
    ⟨[], false⟩ "hello" rfl

/-- Counterexample to C7 as stated: on a transcript with one model entry
holding two truthy text parts, `thoughts 0` returns `["b"]`, although the
only Assistant entry has entry-ordinal `0 ≤ 0`, so the per-entry reading
(`specEntryThoughts`, built from the spec's words) demands `[]`: the code
assigns ordinals per text part, not per Assistant entry. -/
theorem thoughts_entry_ordinal_counterexample :
    thoughts 0 twoPartModelTranscript = ["b"] ∧
    specEntryThoughts 0 twoPartModelTranscript = [] ∧
    thoughts 0 twoPartModelTranscript ≠ specEntryThoughts 0 twoPartModelTranscript :=
  ⟨rfl, rfl, by decide⟩

/-- The inner part loop advances the running ordinal by the number of
truthy parts. -/
theorem partsScan_snd (w : Int) (ps : List Part) : ∀ idx : Nat,
    (partsScan w ps idx).2 = idx + (partTexts ps).length := by
  induction ps with
  | nil => intro idx; simp [partsScan, partTexts]
  | cons p ps ih =>
    intro idx
    cases hp : p.text with
    | none => simp [partsScan, partTexts, List.filterMap_cons, hp, ih idx]
    | some t =>
      by_cases ht : t = ""
      · simp [partsScan, partTexts, List.filterMap_cons, hp, ht, ih idx]
      · simp only [partsScan, hp, ht, reduceIte, partTexts, List.filterMap_cons,
          ih (idx + 1), List.length_cons]
        omega

/-- The inner part loop returns the texts of the truthy parts whose running
part-ordinal exceeds the watermark. -/
theorem partsScan_fst (w : Int) (ps : List Part) : ∀ idx : Nat,
    (partsScan w ps idx).1 =
      (((partTexts ps).enumFrom idx).filter
        fun q => decide ((q.1 : Int) > w)).map Prod.snd := by
  induction ps with
  | nil => intro idx; simp [partsScan, partTexts]
  | cons p ps ih =>
    intro idx
    cases hp : p.text with
    | none => simp [partsScan, partTexts, List.filterMap_cons, hp, ih idx]
    | some t =>
      by_cases ht : t = ""
      · simp [partsScan, partTexts, List.filterMap_cons, hp, ht, ih idx]
      · simp only [partsScan, hp, ht, reduceIte, partTexts, List.filterMap_cons,
          ih (idx + 1), List.enumFrom_cons, List.filter_cons]
        by_cases hgt : (idx : Int) > w
        · simp [hgt]
        · simp [hgt]

/-- The outer loop of `thoughts` filters the flattened truthy model texts by
their running part-ordinal. -/
theorem thoughtsGo_eq (w : Int) (cs : List Content) : ∀ idx : Nat,
    thoughtsGo w cs idx =
      (((assistantPartTexts cs).enumFrom idx).filter
        fun q => decide ((q.1 : Int) > w)).map Prod.snd := by
  induction cs with
  | nil => intro idx; simp [thoughtsGo, assistantPartTexts]
  | cons c cs ih =>
    intro idx
    by_cases hr : c.role = "model"
    · simp only [thoughtsGo, hr, if_true, reduceIte, partsScan_fst, partsScan_snd,
        assistantPartTexts, List.filter_cons, List.map_cons, List.flatten_cons,
        decide_True, List.enumFrom_append, List.filter_append, List.map_append,
        Content.truthyTexts]
      rw [ih]
      simp [assistantPartTexts]
    · simp only [thoughtsGo, hr, Bool.false_eq_true, if_false, reduceIte,
        assistantPartTexts, List.filter_cons, decide_False]
      rw [ih]
      simp [assistantPartTexts]

/-- C7 (amended): `thoughts(w)` returns exactly the texts of the truthy
text parts of model entries whose 0-based ordinal — assigned per truthy
text part across all model entries, in transcript order — is strictly
greater than `w`, in transcript order; as a pure function of the contents
list it modifies nothing and is identical on repeated calls. -/
theorem thoughts_part_ordinal (w : Int) (contents : List Content) :
    thoughts w contents =
      (((assistantPartTexts contents).enum).filter
        fun q => decide ((q.1 : Int) > w)).map Prod.snd := by
  rw [thoughts, thoughtsGo_eq]
  rfl

/-- C8 counterexample: a graph run that appends a model turn to its list and
then fails.  The claim says the session transcript retains that appended
turn; in fact the run mutates the shallow copy `list(self._contents)` and
`self._contents = state_out["contents"]` is skipped on error, so the session
keeps only the user turn and the model turn is lost. -/
theorem prompt_abort_loses_intermediate_turn :
    (abortingRun ([] ++ [userContent "hi"])).1 =
      [userContent "hi", ⟨"model", [⟨some "partial"⟩]⟩] ∧
    (promptA abortingRun ⟨[], false⟩ "hi").2 =
      .error (.other "ToolInvocationError") ∧
    (promptA abortingRun ⟨[], false⟩ "hi").1.contents = [userContent "hi"] ∧
    ¬ (⟨"model", [⟨some "partial"⟩]⟩ : Content) ∈
        (promptA abortingRun ⟨[], false⟩ "hi").1.contents :=
  ⟨rfl, rfl, rfl, by decide⟩

/-- C8 (amended): when the graph run propagates an error, the session
transcript retains exactly the turns appended to the session's own list
before the failure — the prior transcript plus the user turn of the aborted
call — and a subsequent `prompt` resumes from that state; turns appended
during the aborted run are not retained (they lived in the discarded
copy). -/
theorem prompt_abort_retains_user_turn
    (run : List Content → List Content × Option PyExc) (s : AgentState)
    (p : String) (e : PyExc) (hterm : s.terminated = false) (hp : p ≠ "END")
    (herr : (run (s.contents ++ [userContent p])).2 = some e) :
    promptA run s p =
      ({ s with contents := s.contents ++ [userContent p] }, .error e) := by
  rcases hrun : run (s.contents ++ [userContent p]) with ⟨l, o⟩
  rw [hrun] at herr
  simp only at herr
  rw [promptA, if_neg (by simp [hterm]), if_neg hp, hrun, herr]

/-- Witness for C8 (amended): the aborting run on a fresh session leaves a
transcript holding exactly the user turn. -/
theorem prompt_abort_retains_user_turn_witness :
    promptA abortingRun ⟨[], false⟩ "hi" =
      (⟨[userContent "hi"], false⟩, .error (.other "ToolInvocationError")) :=
  prompt_abort_retains_user_turn abortingRun ⟨[], false⟩ "hi"
    (.other "ToolInvocationError") rfl (by decide) rfl

end SlackBot
